import Mathlib

/-!
Verification of the headline acquisition and deduplication pipeline.

The development shallowly embeds the pipeline's core functions:

* `normalizeTitle` / `hashTitle` / `deduplicateHeadlines` (src/lib/dedupe.ts),
* `scrapeAllSources` over `Promise.allSettled` outcomes (src/lib/scrape.ts),
* the `scrapePubmed`, `scrapeHackerNews` and `scrapeReddit` source adapters
  (src/lib/scrape.ts), each as a total function of an environment that records
  what its outbound HTTP requests returned (a fulfilled, parsed payload or a
  thrown error), mirroring the adapter's try/catch structure,
* `shuffleArray` (src/app/api/trends/route.ts) over an explicit stream of
  random draws.

Strings are Lean `String`s (lists of `Char`); the JavaScript regex classes
`\w` and `\s` are modelled exactly (ASCII word characters; the ECMAScript
white-space set).  `String.prototype.toLowerCase` is modelled by its ASCII
case mapping: the only non-ASCII characters it can affect are neither `\w`
nor `\s` and are therefore erased by the normalizer's punctuation filter
either way.  The SHA-256 hex digest used for dedup keys is modelled as the
identity on the normalized title: the digest serves only as an injective key
for exact normalized-text equality, which is how the surrounding code and
spec use it.
-/

/-- ECMAScript regex class `\w`: ASCII letters, digits and underscore. -/
def jsIsWord (c : Char) : Bool :=
  ('a' ≤ c && c ≤ 'z') || ('A' ≤ c && c ≤ 'Z') || ('0' ≤ c && c ≤ '9') || c = '_'

/-- ECMAScript regex class `\s` (WhiteSpace and LineTerminator code points). -/
def jsIsSpace (c : Char) : Bool :=
  c = ' ' || c = '\t' || c = '\n' || c.toNat = 11 || c.toNat = 12 || c = '\r' ||
  c.toNat = 160 || c.toNat = 5760 || (8192 ≤ c.toNat && c.toNat ≤ 8202) ||
  c.toNat = 8232 || c.toNat = 8233 || c.toNat = 8239 || c.toNat = 8287 ||
  c.toNat = 12288 || c.toNat = 65279

/-- ASCII case mapping of `String.prototype.toLowerCase` (uppercase A-Z map
down by 32; everything else is fixed). -/
def jsToLower (c : Char) : Char :=
  if h : 65 ≤ c.toNat ∧ c.toNat ≤ 90 then
    ⟨c.val + 32, Or.inl (by
      have h32 : (32 : UInt32).toNat = 32 := rfl
      have hsz : UInt32.size = 4294967296 := rfl
      have hc : c.val.toNat ≤ 90 := h.2
      have hv : (c.val + 32).toNat = c.val.toNat + 32 := by
        rw [UInt32.toNat_add, h32]
        exact Nat.mod_eq_of_lt (by omega)
      show (c.val + 32).toNat < 55296
      omega)⟩
  else c

/-- Characters surviving `.replace(/[^\w\s]/g, '')`: word characters and
white space. -/
def keepChar (c : Char) : Bool := jsIsWord c || jsIsSpace c

/-- Effect of `.replace(/\s+/g, ' ')`: every maximal run of white-space
characters becomes a single space. -/
def collapseWs : List Char → List Char
  | [] => []
  | [c] => if jsIsSpace c then [' '] else [c]
  | c :: d :: rest =>
    if jsIsSpace c && jsIsSpace d then collapseWs (d :: rest)
    else (if jsIsSpace c then ' ' else c) :: collapseWs (d :: rest)

/-- Removal of trailing white space (the right half of `.trim()`): a
character is kept when it is not white space or when something after it
survives. -/
def trimRight : List Char → List Char
  | [] => []
  | c :: cs =>
    if trimRight cs = [] then (if jsIsSpace c then [] else [c])
    else c :: trimRight cs

/-- `String.prototype.trim`: strip leading and trailing white space. -/
def trimChars (l : List Char) : List Char :=
  trimRight (l.dropWhile jsIsSpace)

/-- Well-formedness of white space inside a normalized character list: no
two adjacent white-space characters (used to show the collapse pass is a
fixed point on its own output). -/
def noAdjSpace : List Char → Prop
  | c :: d :: rest => (jsIsSpace c && jsIsSpace d) = false ∧ noAdjSpace (d :: rest)
  | _ => True

/-- Character-list form of `normalizeTitle` (src/lib/dedupe.ts): lower-case,
strip everything outside `\w` and `\s`, collapse white-space runs to a single
space, trim. -/
def normChars (l : List Char) : List Char :=
  trimChars (collapseWs (List.filter keepChar (l.map jsToLower)))

/-- `normalizeTitle` from src/lib/dedupe.ts:
`title.toLowerCase().replace(/[^\w\s]/g, '').replace(/\s+/g, ' ').trim()`. -/
def normalizeTitle (title : String) : String :=
  String.mk (normChars title.data)

/-- `hashTitle` from src/lib/dedupe.ts computes the SHA-256 hex digest of the
normalized title; the digest is modelled as the identity on the normalized
title, an injective stand-in that preserves exactly the key-equality
structure the dedup logic relies on. -/
def hashTitle (title : String) : String :=
  normalizeTitle title

/-- The `Headline` record of src/lib/scrape.ts: `title` and `source` are
required, `url` and `date` optional. -/
structure Headline where
  title : String
  source : String
  url : Option String := none
  date : Option String := none
  deriving Repr, DecidableEq

/-- The loop body of `deduplicateHeadlines`: walk the list with the set of
already-seen keys (`seen`), keeping a headline exactly when its key is
fresh. -/
def dedupAux (seen : List String) : List Headline → List Headline
  | [] => []
  | headline :: rest =>
    if seen.contains (hashTitle headline.title) then dedupAux seen rest
    else headline :: dedupAux (hashTitle headline.title :: seen) rest

/-- `deduplicateHeadlines` from src/lib/dedupe.ts. -/
def deduplicateHeadlines (headlines : List Headline) : List Headline :=
  dedupAux [] headlines

/-- Outcome of one settled promise, as reported by `Promise.allSettled`:
fulfilled with a value, or rejected. -/
inductive SettledResult (α : Type) where
  | fulfilled (value : α)
  | rejected
  deriving Repr, DecidableEq

/-- The fulfilled value of a settled outcome, if any. -/
def settledValue : SettledResult (List Headline) → Option (List Headline)
  | .fulfilled v => some v
  | .rejected => none

/-- `scrapeAllSources` from src/lib/scrape.ts, as a function of the settled
outcomes of its 15 scraper promises (each promise is launched with the query
and settles according to the network environment): `Promise.allSettled`
never rejects, and the aggregator pushes the value of every fulfilled
outcome, in order, skipping rejected ones. -/
def scrapeAllSources (outcomes : List (SettledResult (List Headline))) : List Headline :=
  outcomes.foldl (fun headlines r =>
    match r with
    | .fulfilled v => headlines ++ v
    | .rejected => headlines) []

/-- JavaScript truthiness of an optional string (`undefined` and `""` are
falsy). -/
def jsTruthy : Option String → Bool
  | some s => s != ""
  | none => false

/-- One step of `.replace(/<[^>]*>/g, '')`: while outside a tag, `<` opens a
buffered candidate tag; inside one, `>` discards the buffer (the match is
erased); a candidate left open at the end of input never matched and is
emitted verbatim. -/
def stripTagsGo : Option (List Char) → List Char → List Char
  | none, [] => []
  | some buf, [] => buf.reverse
  | none, c :: rest =>
    if c = '<' then stripTagsGo (some [c]) rest else c :: stripTagsGo none rest
  | some buf, c :: rest =>
    if c = '>' then stripTagsGo none rest else stripTagsGo (some (c :: buf)) rest

/-- `title.replace(/<[^>]*>/g, '')` as used by `scrapePubmed`. -/
def stripTags (s : String) : String :=
  String.mk (stripTagsGo none s.data)

/-- One article of the PubMed esummary payload (`summaryData.result[id]`);
`title` and `pubdate` may be absent. -/
structure PubmedArticle where
  title : Option String
  pubdate : Option String

/-- The PubMed esearch payload: `esearchresult?.idlist` may be absent. -/
structure PubmedSearchData where
  idlist : Option (List String)

/-- The PubMed esummary payload: `result` may be absent; when present it maps
ids to articles. -/
structure PubmedSummaryData where
  result : Option (String → Option PubmedArticle)

/-- Environment of one `scrapePubmed` call: what each of its two HTTP
requests (fetch + JSON parse) produced, and an oracle for
`new Date(s).toISOString()` on publication-date strings (`dateOk` tells
whether the conversion succeeds, `dateIso` gives its value). -/
structure PubmedEnv where
  search : Except Unit PubmedSearchData
  summary : Except Unit PubmedSummaryData
  dateOk : String → Bool
  dateIso : String → String

/-- The article URL `scrapePubmed` synthesizes for an id. -/
def pubmedUrl (id : String) : String :=
  "https://pubmed.ncbi.nlm.nih.gov/" ++ id ++ "/"

/-- One iteration of `scrapePubmed`'s result loop for an article that was
found: push a headline when the title is truthy; converting a truthy
`pubdate` can throw (`new Date(...).toISOString()`), in which case the
exception carries the results accumulated so far. -/
def pubmedPush (env : PubmedEnv) (acc : List Headline) (id : String)
    (article : PubmedArticle) : Except (List Headline) (List Headline) :=
  match article.title with
  | none => .ok acc
  | some t =>
    if t = "" then .ok acc
    else
      match article.pubdate with
      | some pd =>
        if pd = "" then
          .ok (acc ++ [{ title := stripTags t, source := "PubMed",
                         url := some (pubmedUrl id), date := none }])
        else if env.dateOk pd then
          .ok (acc ++ [{ title := stripTags t, source := "PubMed",
                         url := some (pubmedUrl id), date := some (env.dateIso pd) }])
        else .error acc
      | none =>
        .ok (acc ++ [{ title := stripTags t, source := "PubMed",
                       url := some (pubmedUrl id), date := none }])

/-- `scrapePubmed`'s `for (const id of ids)` loop; an `.error` outcome is a
thrown exception carrying the results accumulated before it. -/
def pubmedLoop (env : PubmedEnv) (find : String → Option PubmedArticle) :
    List String → List Headline → Except (List Headline) (List Headline)
  | [], acc => .ok acc
  | id :: rest, acc =>
    match find id with
    | none => pubmedLoop env find rest acc
    | some article =>
      match pubmedPush env acc id article with
      | .ok acc2 => pubmedLoop env find rest acc2
      | .error stopped => .error stopped

/-- The body of `scrapePubmed`'s `try` block: an `.error` outcome is a thrown
exception carrying the value of `results` at the throw point. -/
def scrapePubmedBody (env : PubmedEnv) : Except (List Headline) (List Headline) :=
  match env.search with
  | .error _ => .error []
  | .ok sd =>
    match sd.idlist with
    | none => .ok []
    | some ids =>
      if ids.isEmpty then .ok []
      else
        match env.summary with
        | .error _ => .error []
        | .ok sm =>
          pubmedLoop env
            (fun id => match sm.result with | some f => f id | none => none) ids []

/-- The value of `results` after the `try`/`catch`: the `catch` logs and
falls through to `return results`, so a thrown exception yields the results
accumulated before it. -/
def caughtResults : Except (List Headline) (List Headline) → List Headline
  | .ok results => results
  | .error results => results

/-- `scrapePubmed` from src/lib/scrape.ts: run the `try` body; any thrown
error is caught and the accumulated `results` returned.  The query only
selects the search URL, which the environment already accounts for. -/
def scrapePubmed (env : PubmedEnv) : List Headline :=
  caughtResults (scrapePubmedBody env)

/-- One hit of the Algolia search payload used by `scrapeHackerNews`. -/
structure HNHit where
  title : String
  url : Option String
  objectID : String
  created_at : String
  deriving Repr, DecidableEq

/-- The Algolia search payload: `hits` may be absent. -/
structure HNSearchData where
  hits : Option (List HNHit)
  deriving Repr, DecidableEq

/-- Environment of one `scrapeHackerNews` call: what its single HTTP request
(fetch + JSON parse) produced. -/
structure HNEnv where
  resp : Except Unit HNSearchData

/-- `hit.url || fallback-item-url` (an absent or empty `url` is falsy). -/
def hnItemUrl (hit : HNHit) : String :=
  match hit.url with
  | some u =>
    if u = "" then "https://news.ycombinator.com/item?id=" ++ hit.objectID else u
  | none => "https://news.ycombinator.com/item?id=" ++ hit.objectID

/-- `scrapeHackerNews` from src/lib/scrape.ts: map every hit verbatim into a
headline (`data.hits?.map(...) || []`); any thrown error is caught and
yields `[]`.  The query only selects the request URL, which the environment
already accounts for. -/
def scrapeHackerNews (env : HNEnv) : List Headline :=
  match env.resp with
  | .error _ => []
  | .ok data =>
    match data.hits with
    | some hits =>
      hits.map (fun hit =>
        { title := hit.title, source := "Hacker News",
          url := some (hnItemUrl hit), date := some hit.created_at })
    | none => []

/-- The titles carried by the hits of a Hacker News response. -/
def hnRespTitles (env : HNEnv) : List String :=
  match env.resp with
  | .ok data => (data.hits.getD []).map HNHit.title
  | .error _ => []

/-- One post of a Reddit listing (`child.data`). -/
structure RedditPost where
  title : String
  permalink : String
  subreddit : String
  created_utc : Nat
  deriving Repr, DecidableEq

/-- One child of a Reddit listing. -/
structure RedditChild where
  data : RedditPost
  deriving Repr, DecidableEq

/-- The inner `data` object of a Reddit listing: `children` may be absent. -/
structure RedditData where
  children : Option (List RedditChild)
  deriving Repr, DecidableEq

/-- A Reddit listing payload: the `data` object may be absent. -/
structure RedditListing where
  data : Option RedditData
  deriving Repr, DecidableEq

/-- Environment of one `scrapeReddit` call: the search request's outcome, the
per-subreddit browse requests' outcomes, and an oracle for
`new Date(created_utc * 1000).toISOString()`. -/
structure RedditEnv where
  searchResp : Except Unit RedditListing
  subResp : String → Except Unit RedditListing
  epochIso : Nat → String

/-- `data.data?.children` with absence collapsing to no children. -/
def redditChildren (listing : RedditListing) : List RedditChild :=
  match listing.data with
  | some d => d.children.getD []
  | none => []

/-- The fixed browse-mode subreddit list of `scrapeReddit`. -/
def redditSubreddits : List String :=
  ["biology", "bioinformatics", "genomics", "neuroscience", "microbiology",
   "genetics", "labrats", "biochemistry"]

/-- The headlines one browse-mode sub-fetch of `scrapeReddit` contributes:
its own catch converts a failure into no pushes. -/
def redditSubHeadlines (env : RedditEnv) (subreddit : String) : List Headline :=
  match env.subResp subreddit with
  | .error _ => []
  | .ok listing =>
    (redditChildren listing).map (fun child =>
      { title := child.data.title, source := "Reddit r/" ++ subreddit,
        url := some ("https://reddit.com" ++ child.data.permalink),
        date := some (env.epochIso child.data.created_utc) })

/-- `scrapeReddit` from src/lib/scrape.ts: with a truthy query, one search
request mapped verbatim (`|| []` on failure of the optional chain, `[]` on a
thrown error); otherwise a browse-mode fan-out over eight subreddits, each
sub-fetch's failure isolated by its own catch.  Pushes across sub-fetches
are modelled in subreddit-list order. -/
def scrapeReddit (query : Option String) (env : RedditEnv) : List Headline :=
  if jsTruthy query then
    match env.searchResp with
    | .error _ => []
    | .ok listing =>
      (redditChildren listing).map (fun child =>
        { title := child.data.title, source := "Reddit r/" ++ child.data.subreddit,
          url := some ("https://reddit.com" ++ child.data.permalink),
          date := some (env.epochIso child.data.created_utc) })
  else
    redditSubreddits.foldl (fun results subreddit =>
      results ++ redditSubHeadlines env subreddit) []

/-- The titles carried by the children of the Reddit responses a
`scrapeReddit` call consumes. -/
def redditRespTitles (query : Option String) (env : RedditEnv) : List String :=
  if jsTruthy query then
    match env.searchResp with
    | .ok listing => (redditChildren listing).map (fun child => child.data.title)
    | .error _ => []
  else
    (redditSubreddits.map (fun subreddit =>
      match env.subResp subreddit with
      | .ok listing => (redditChildren listing).map (fun child => child.data.title)
      | .error _ => [])).flatten

/-- Swap of two list positions (identity when either index is out of
range; the shuffle only ever uses in-range indices). -/
def swapL {α : Type} (l : List α) (i j : Nat) : List α :=
  match l[i]?, l[j]? with
  | some a, some b => (l.set i b).set j a
  | _, _ => l

/-- The loop of `shuffleArray`: for `i` from `length - 1` down to `1`, swap
position `i` with position `js i % (i + 1)`; `js` is the stream of random
draws (`Math.floor(Math.random() * (i + 1))` always lies in `[0, i]`, which
the `% (i + 1)` reduction makes explicit). -/
def shuffleLoop {α : Type} (js : Nat → Nat) : Nat → List α → List α
  | 0, l => l
  | i + 1, l => shuffleLoop js i (swapL l (i + 1) (js (i + 1) % (i + 2)))

/-- `shuffleArray` from src/app/api/trends/route.ts (Fisher-Yates over a
copy of the input). -/
def shuffleArray {α : Type} (js : Nat → Nat) (l : List α) : List α :=
  shuffleLoop js (l.length - 1) l

/-- A malformed Algolia hit whose `title` field is the empty string. -/
def hnBadHit : HNHit :=
  { title := "", url := none, objectID := "123",
    created_at := "2025-01-01T00:00:00.000Z" }

/-- A Hacker News environment whose response fulfils with one malformed
(empty-title) hit. -/
def hnBadEnv : HNEnv :=
  { resp := .ok { hits := some [hnBadHit] } }

/-- Settled outcomes of the 15 scraper promises in which every adapter
fulfils, the Hacker News adapter having consumed the malformed response. -/
def wellformednessOutcomes : List (SettledResult (List Headline)) :=
  List.replicate 14 (SettledResult.fulfilled []) ++
    [SettledResult.fulfilled (scrapeHackerNews hnBadEnv)]

/-- A PubMed esummary payload whose second article carries an unparseable
publication date. -/
def pubmedBadSummary : PubmedSummaryData :=
  { result := some (fun id =>
      if id = "1" then some { title := some "Alpha finding", pubdate := some "2024-01-01" }
      else if id = "2" then some { title := some "Beta finding", pubdate := some "not-a-date" }
      else none) }

/-- A PubMed environment in which both fetches succeed but the second
article's `new Date("not-a-date").toISOString()` throws. -/
def pubmedBadEnv : PubmedEnv :=
  { search := .ok { idlist := some ["1", "2"] },
    summary := .ok pubmedBadSummary,
    dateOk := fun s => s == "2024-01-01",
    dateIso := fun _ => "2024-01-01T00:00:00.000Z" }

/-- The headline `scrapePubmed` accumulates before the date exception in
`pubmedBadEnv`. -/
def pubmedAlphaHeadline : Headline :=
  { title := "Alpha finding", source := "PubMed",
    url := some (pubmedUrl "1"), date := some "2024-01-01T00:00:00.000Z" }

/-! ### Lemmas about the character classes and case mapping -/

theorem jsToLower_eq_self (c : Char) (h : ¬(65 ≤ c.toNat ∧ c.toNat ≤ 90)) :
    jsToLower c = c := by
  unfold jsToLower
  rw [dif_neg h]

theorem toNat_jsToLower (c : Char) :
    (jsToLower c).toNat =
      if 65 ≤ c.toNat ∧ c.toNat ≤ 90 then c.toNat + 32 else c.toNat := by
  by_cases h : 65 ≤ c.toNat ∧ c.toNat ≤ 90
  · rw [if_pos h]
    unfold jsToLower
    rw [dif_pos h]
    have h32 : (32 : UInt32).toNat = 32 := rfl
    have hsz : UInt32.size = 4294967296 := rfl
    have hc : c.val.toNat ≤ 90 := h.2
    show (c.val + 32).toNat = c.val.toNat + 32
    rw [UInt32.toNat_add, h32]
    exact Nat.mod_eq_of_lt (by omega)
  · rw [if_neg h, jsToLower_eq_self c h]

theorem jsToLower_idem (c : Char) : jsToLower (jsToLower c) = jsToLower c := by
  by_cases h : 65 ≤ c.toNat ∧ c.toNat ≤ 90
  · have h1 := toNat_jsToLower c
    rw [if_pos h] at h1
    exact jsToLower_eq_self _ (by omega)
  · rw [jsToLower_eq_self c h]
    exact jsToLower_eq_self c h

theorem jsToLower_space : jsToLower ' ' = ' ' := by decide

theorem keepChar_space : keepChar ' ' = true := by decide

/-! ### Membership lemmas for the collapse and trim passes -/

theorem mem_collapseWs : ∀ (l : List Char) (c : Char), c ∈ collapseWs l → c ∈ l ∨ c = ' ' := by
  intro l
  induction l with
  | nil => intro c hc; simp [collapseWs] at hc
  | cons a tail ih =>
    intro c hc
    cases tail with
    | nil =>
      rw [collapseWs] at hc
      split at hc
      · right; simpa using hc
      · left; simpa using hc
    | cons b rest =>
      rw [collapseWs] at hc
      split at hc
      · rcases ih c hc with h | h
        · exact Or.inl (List.mem_cons_of_mem a h)
        · exact Or.inr h
      · rcases List.mem_cons.mp hc with h | h
        · by_cases hsp : jsIsSpace a
          · rw [if_pos hsp] at h; exact Or.inr h
          · rw [if_neg hsp] at h; exact Or.inl (h ▸ List.mem_cons_self a (b :: rest))
        · rcases ih c h with h2 | h2
          · exact Or.inl (List.mem_cons_of_mem a h2)
          · exact Or.inr h2

theorem mem_trimRight : ∀ (l : List Char) (c : Char), c ∈ trimRight l → c ∈ l := by
  intro l
  induction l with
  | nil => intro c hc; simp [trimRight] at hc
  | cons a tail ih =>
    intro c hc
    rw [trimRight] at hc
    by_cases he : trimRight tail = []
    · rw [if_pos he] at hc
      by_cases hsp : jsIsSpace a
      · rw [if_pos hsp] at hc; simp at hc
      · rw [if_neg hsp] at hc
        exact (List.mem_singleton.mp hc) ▸ List.mem_cons_self a tail
    · rw [if_neg he] at hc
      rcases List.mem_cons.mp hc with h | h
      · exact h ▸ List.mem_cons_self a tail
      · exact List.mem_cons_of_mem a (ih c h)

theorem mem_trimChars (l : List Char) (c : Char) (hc : c ∈ trimChars l) : c ∈ l := by
  have h1 : c ∈ l.dropWhile jsIsSpace := mem_trimRight _ c hc
  exact (List.dropWhile_sublist jsIsSpace).subset h1

theorem mem_normChars (l : List Char) (c : Char) (hc : c ∈ normChars l) :
    jsToLower c = c ∧ keepChar c = true := by
  have h1 : c ∈ collapseWs (List.filter keepChar (l.map jsToLower)) :=
    mem_trimChars _ c hc
  rcases mem_collapseWs _ c h1 with h | h
  · have hk : keepChar c = true := List.of_mem_filter h
    have hm : c ∈ l.map jsToLower := List.mem_of_mem_filter h
    rcases List.mem_map.mp hm with ⟨x, _, hx⟩
    exact ⟨hx ▸ jsToLower_idem x, hk⟩
  · subst h
    exact ⟨jsToLower_space, keepChar_space⟩

/-! ### White-space structure of the collapse and trim passes -/

theorem noAdjSpace_tail (c : Char) (l : List Char) (h : noAdjSpace (c :: l)) :
    noAdjSpace l := by
  cases l with
  | nil => trivial
  | cons d rest => exact h.2

theorem collapseWs_head (d : Char) (rest : List Char) (hd : jsIsSpace d = false) :
    ∃ t, collapseWs (d :: rest) = d :: t := by
  cases rest with
  | nil => exact ⟨[], by simp [collapseWs, hd]⟩
  | cons e rest2 => exact ⟨collapseWs (e :: rest2), by simp [collapseWs, hd]⟩

theorem noAdjSpace_collapseWs : ∀ l : List Char, noAdjSpace (collapseWs l) := by
  intro l
  induction l with
  | nil => rw [collapseWs]; trivial
  | cons a tail ih =>
    cases tail with
    | nil =>
      rw [collapseWs]
      by_cases ha : jsIsSpace a = true
      · rw [if_pos ha]; trivial
      · rw [if_neg ha]; trivial
    | cons b rest =>
      rw [collapseWs]
      by_cases hab : (jsIsSpace a && jsIsSpace b) = true
      · rw [if_pos hab]; exact ih
      · rw [if_neg hab]
        by_cases ha : jsIsSpace a = true
        · rw [if_pos ha]
          have hb : jsIsSpace b = false := by
            cases hjb : jsIsSpace b
            · rfl
            · exact absurd (by simp [ha, hjb]) hab
          rcases collapseWs_head b rest hb with ⟨t, ht⟩
          rw [ht]
          show (jsIsSpace ' ' && jsIsSpace b) = false ∧ noAdjSpace (b :: t)
          exact ⟨by simp [hb], ht ▸ ih⟩
        · rw [if_neg ha]
          have ha' : jsIsSpace a = false := by
            cases hja : jsIsSpace a
            · rfl
            · exact absurd hja ha
          cases hcw : collapseWs (b :: rest) with
          | nil => trivial
          | cons m ms =>
            show (jsIsSpace a && jsIsSpace m) = false ∧ noAdjSpace (m :: ms)
            exact ⟨by simp [ha'], hcw ▸ ih⟩

theorem spacesSingle_collapseWs :
    ∀ (l : List Char) (c : Char), c ∈ collapseWs l → jsIsSpace c = true → c = ' ' := by
  intro l
  induction l with
  | nil => intro c hc _; simp [collapseWs] at hc
  | cons a tail ih =>
    cases tail with
    | nil =>
      intro c hc hs
      rw [collapseWs] at hc
      by_cases ha : jsIsSpace a = true
      · rw [if_pos ha] at hc; simpa using hc
      · rw [if_neg ha] at hc
        have hca : c = a := by simpa using hc
        exact absurd (hca ▸ hs) ha
    | cons b rest =>
      intro c hc hs
      rw [collapseWs] at hc
      by_cases hab : (jsIsSpace a && jsIsSpace b) = true
      · rw [if_pos hab] at hc; exact ih c hc hs
      · rw [if_neg hab] at hc
        rcases List.mem_cons.mp hc with h | h
        · by_cases ha : jsIsSpace a = true
          · rw [if_pos ha] at h; exact h
          · rw [if_neg ha] at h; exact absurd (h ▸ hs) ha
        · exact ih c h hs

theorem collapseWs_eq_self : ∀ l : List Char,
    (∀ c ∈ l, jsIsSpace c = true → c = ' ') → noAdjSpace l → collapseWs l = l := by
  intro l
  induction l with
  | nil => intro _ _; rfl
  | cons a tail ih =>
    intro hsp hadj
    cases tail with
    | nil =>
      rw [collapseWs]
      by_cases ha : jsIsSpace a = true
      · rw [if_pos ha, hsp a (List.mem_cons_self a []) ha]
      · rw [if_neg ha]
    | cons b rest =>
      rw [collapseWs]
      rw [if_neg (by simp [hadj.1])]
      have htail : collapseWs (b :: rest) = b :: rest :=
        ih (fun c hc hs => hsp c (List.mem_cons_of_mem a hc) hs) (noAdjSpace_tail a _ hadj)
      rw [htail]
      by_cases ha : jsIsSpace a = true
      · rw [if_pos ha, hsp a (List.mem_cons_self a _) ha]
      · rw [if_neg ha]

/-! ### The trim pass on well-spaced lists -/

theorem trimRight_head (a : Char) (tail : List Char) :
    trimRight (a :: tail) = [] ∨ ∃ t, trimRight (a :: tail) = a :: t := by
  rw [trimRight]
  by_cases he : trimRight tail = []
  · rw [if_pos he]
    by_cases ha : jsIsSpace a = true
    · left; rw [if_pos ha]
    · right; exact ⟨[], by rw [if_neg ha]⟩
  · right; exact ⟨trimRight tail, by rw [if_neg he]⟩

theorem trimRight_head_eq : ∀ (l : List Char) (a : Char) (t : List Char),
    trimRight l = a :: t → ∃ t2, l = a :: t2 := by
  intro l a t h
  cases l with
  | nil => rw [trimRight] at h; exact absurd h (by simp)
  | cons x xs =>
    rcases trimRight_head x xs with h0 | ⟨t3, ht3⟩
    · rw [h0] at h; exact absurd h (by simp)
    · rw [ht3] at h
      injection h with h1 _
      exact ⟨xs, by rw [h1]⟩

theorem noAdjSpace_trimRight : ∀ l : List Char, noAdjSpace l → noAdjSpace (trimRight l) := by
  intro l
  induction l with
  | nil => intro h; rw [trimRight]; trivial
  | cons a tail ih =>
    intro h
    rw [trimRight]
    by_cases he : trimRight tail = []
    · rw [if_pos he]
      by_cases ha : jsIsSpace a = true
      · rw [if_pos ha]; trivial
      · rw [if_neg ha]; trivial
    · rw [if_neg he]
      have htl : noAdjSpace (trimRight tail) := ih (noAdjSpace_tail a tail h)
      cases tail with
      | nil => rw [trimRight] at he; exact absurd rfl he
      | cons b rest =>
        rcases trimRight_head b rest with h0 | ⟨t, ht⟩
        · exact absurd h0 he
        · rw [ht]
          show (jsIsSpace a && jsIsSpace b) = false ∧ noAdjSpace (b :: t)
          exact ⟨h.1, ht ▸ htl⟩

theorem noAdjSpace_dropWhile (p : Char → Bool) :
    ∀ l : List Char, noAdjSpace l → noAdjSpace (l.dropWhile p) := by
  intro l
  induction l with
  | nil => intro h; simpa using h
  | cons a tail ih =>
    intro h
    by_cases ha : p a = true
    · rw [List.dropWhile_cons_of_pos ha]
      exact ih (noAdjSpace_tail a tail h)
    · rw [List.dropWhile_cons_of_neg ha]
      exact h

theorem getLast?_trimRight : ∀ (l : List Char) (c : Char),
    (trimRight l).getLast? = some c → jsIsSpace c = false := by
  intro l
  induction l with
  | nil => intro c hc; rw [trimRight] at hc; simp at hc
  | cons a tail ih =>
    intro c hc
    rw [trimRight] at hc
    by_cases he : trimRight tail = []
    · rw [if_pos he] at hc
      by_cases ha : jsIsSpace a = true
      · rw [if_pos ha] at hc; simp at hc
      · rw [if_neg ha] at hc
        have hac : a = c := by simpa using hc
        cases hjc : jsIsSpace c
        · rfl
        · exact absurd (hac ▸ hjc) ha
    · rw [if_neg he] at hc
      cases htr : trimRight tail with
      | nil => exact absurd htr he
      | cons m ms =>
        rw [htr, List.getLast?_cons_cons] at hc
        exact ih c (htr ▸ hc)

theorem trimRight_eq_self : ∀ l : List Char,
    (∀ c, l.getLast? = some c → jsIsSpace c = false) → trimRight l = l := by
  intro l
  induction l with
  | nil => intro _; rfl
  | cons a tail ih =>
    intro h
    rw [trimRight]
    cases tail with
    | nil =>
      have ha : jsIsSpace a = false := h a (by simp)
      simp [trimRight, ha]
    | cons b rest =>
      have htl : trimRight (b :: rest) = b :: rest :=
        ih (fun c hc => h c (by rw [List.getLast?_cons_cons]; exact hc))
      rw [htl, if_neg (List.cons_ne_nil b rest)]

/-! ### The normalizer is a fixed point on its own output -/

theorem head_normChars (l : List Char) (a : Char) (t : List Char)
    (h : normChars l = a :: t) : jsIsSpace a = false := by
  unfold normChars trimChars at h
  rcases trimRight_head_eq _ a t h with ⟨t2, ht2⟩
  have hnot := List.head?_dropWhile_not jsIsSpace
    (collapseWs (List.filter keepChar (l.map jsToLower)))
  rw [ht2] at hnot
  simpa using hnot

theorem normChars_idem (l : List Char) : normChars (normChars l) = normChars l := by
  have hmap : (normChars l).map jsToLower = normChars l := by
    have hfix : ∀ c ∈ normChars l, jsToLower c = c :=
      fun c hc => (mem_normChars l c hc).1
    calc (normChars l).map jsToLower = (normChars l).map id :=
          List.map_congr_left (fun a ha => hfix a ha)
    _ = normChars l := List.map_id (normChars l)
  have hfil : (normChars l).filter keepChar = normChars l :=
    List.filter_eq_self.mpr (fun a ha => (mem_normChars l a ha).2)
  have hsp : ∀ c ∈ normChars l, jsIsSpace c = true → c = ' ' := by
    intro c hc hs
    have h1 : c ∈ collapseWs (List.filter keepChar (l.map jsToLower)) :=
      mem_trimChars _ c hc
    exact spacesSingle_collapseWs _ c h1 hs
  have hadj : noAdjSpace (normChars l) := by
    unfold normChars trimChars
    exact noAdjSpace_trimRight _ (noAdjSpace_dropWhile _ _ (noAdjSpace_collapseWs _))
  have hcol : collapseWs (normChars l) = normChars l :=
    collapseWs_eq_self (normChars l) hsp hadj
  have hlast : ∀ c, (normChars l).getLast? = some c → jsIsSpace c = false := by
    intro c hc
    unfold normChars trimChars at hc
    exact getLast?_trimRight _ c hc
  have hdrop : (normChars l).dropWhile jsIsSpace = normChars l := by
    cases hN : normChars l with
    | nil => rfl
    | cons a t =>
      have ha : jsIsSpace a = false := head_normChars l a t hN
      rw [List.dropWhile_cons_of_neg (by rw [ha]; exact Bool.false_ne_true)]
  have htrim : trimRight (normChars l) = normChars l :=
    trimRight_eq_self (normChars l) hlast
  show trimChars (collapseWs (List.filter keepChar ((normChars l).map jsToLower))) =
    normChars l
  rw [hmap, hfil, hcol]
  unfold trimChars
  rw [hdrop, htrim]

/-! ### Deduplication lemmas -/

theorem dedupAux_sublist : ∀ (seen : List String) (hs : List Headline),
    List.Sublist (dedupAux seen hs) hs := by
  intro seen hs
  induction hs generalizing seen with
  | nil => rw [dedupAux]
  | cons a rest ih =>
    rw [dedupAux]
    by_cases hc : seen.contains (hashTitle a.title) = true
    · rw [if_pos hc]
      exact List.Sublist.cons a (ih seen)
    · rw [if_neg hc]
      exact List.Sublist.cons₂ a (ih _)

theorem dedupAux_fresh : ∀ (seen : List String) (hs : List Headline) (h : Headline),
    h ∈ dedupAux seen hs → seen.contains (hashTitle h.title) = false := by
  intro seen hs
  induction hs generalizing seen with
  | nil => intro h hh; rw [dedupAux] at hh; simp at hh
  | cons a rest ih =>
    intro h hh
    rw [dedupAux] at hh
    by_cases hc : seen.contains (hashTitle a.title) = true
    · rw [if_pos hc] at hh; exact ih seen h hh
    · rw [if_neg hc] at hh
      rcases List.mem_cons.mp hh with h1 | h1
      · subst h1
        cases hres : seen.contains (hashTitle h.title)
        · rfl
        · exact absurd hres hc
      · have h2 := ih _ h h1
        simp only [List.contains_cons, Bool.or_eq_false_iff] at h2
        exact h2.2

theorem dedupAux_pairwise : ∀ (seen : List String) (hs : List Headline),
    (dedupAux seen hs).Pairwise (fun a b => hashTitle a.title ≠ hashTitle b.title) := by
  intro seen hs
  induction hs generalizing seen with
  | nil => rw [dedupAux]; exact List.Pairwise.nil
  | cons a rest ih =>
    rw [dedupAux]
    by_cases hc : seen.contains (hashTitle a.title) = true
    · rw [if_pos hc]; exact ih seen
    · rw [if_neg hc]
      refine List.Pairwise.cons ?_ (ih _)
      intro b hb
      have hfresh := dedupAux_fresh _ _ b hb
      simp only [List.contains_cons, Bool.or_eq_false_iff] at hfresh
      have hne : hashTitle b.title ≠ hashTitle a.title := by simpa using hfresh.1
      exact fun heq => hne heq.symm

theorem dedupAux_eq_self : ∀ (seen : List String) (hs : List Headline),
    (∀ h ∈ hs, seen.contains (hashTitle h.title) = false) →
    hs.Pairwise (fun a b => hashTitle a.title ≠ hashTitle b.title) →
    dedupAux seen hs = hs := by
  intro seen hs
  induction hs generalizing seen with
  | nil => intro _ _; rw [dedupAux]
  | cons a rest ih =>
    intro hfr hpw
    rw [dedupAux]
    have hca : seen.contains (hashTitle a.title) = false :=
      hfr a (List.mem_cons_self a rest)
    rw [if_neg (by rw [hca]; exact Bool.false_ne_true)]
    congr 1
    apply ih
    · intro h hh
      simp only [List.contains_cons, Bool.or_eq_false_iff]
      constructor
      · have hne : hashTitle a.title ≠ hashTitle h.title :=
          (List.pairwise_cons.mp hpw).1 h hh
        exact beq_eq_false_iff_ne.mpr (fun he => hne he.symm)
      · exact hfr h (List.mem_cons_of_mem a hh)
    · exact (List.pairwise_cons.mp hpw).2

theorem dedupAux_filter_key : ∀ (seen : List String) (hs : List Headline) (k : String),
    (dedupAux seen hs).filter (fun h => hashTitle h.title == k) =
      if seen.contains k then []
      else (hs.filter (fun h => hashTitle h.title == k)).take 1 := by
  intro seen hs
  induction hs generalizing seen with
  | nil =>
    intro k
    rw [dedupAux]
    by_cases hk : seen.contains k = true
    · rw [if_pos hk]; rfl
    · rw [if_neg hk]; rfl
  | cons a rest ih =>
    intro k
    rw [dedupAux]
    by_cases hca : seen.contains (hashTitle a.title) = true
    · rw [if_pos hca, ih seen k]
      by_cases hk : seen.contains k = true
      · rw [if_pos hk, if_pos hk]
      · rw [if_neg hk, if_neg hk]
        have hak : (hashTitle a.title == k) = false := by
          cases hbeq : hashTitle a.title == k
          · rfl
          · have heq : hashTitle a.title = k := by simpa using hbeq
            rw [heq] at hca
            exact absurd hca hk
        rw [List.filter_cons_of_neg (by simp [hak])]
    · rw [if_neg hca]
      by_cases hak : (hashTitle a.title == k) = true
      · have hkeq : hashTitle a.title = k := by simpa using hak
        rw [List.filter_cons_of_pos (by simpa using hak)]
        rw [ih (hashTitle a.title :: seen) k]
        have hck : (hashTitle a.title :: seen).contains k = true := by
          simp [List.contains_cons, hkeq]
        rw [if_pos hck]
        have hsk : ¬ seen.contains k = true := by rw [← hkeq]; exact hca
        rw [if_neg hsk]
        rw [List.filter_cons_of_pos (by simpa using hak)]
        rfl
      · rw [List.filter_cons_of_neg (by simp [hak])]
        rw [ih (hashTitle a.title :: seen) k]
        have hne : hashTitle a.title ≠ k := by simpa using hak
        have hcons : (hashTitle a.title :: seen).contains k = seen.contains k := by
          rw [List.contains_cons,
            show (k == hashTitle a.title) = false from
              beq_eq_false_iff_ne.mpr (fun he => hne he.symm),
            Bool.false_or]
        rw [hcons]
        by_cases hk : seen.contains k = true
        · rw [if_pos hk, if_pos hk]
        · rw [if_neg hk, if_neg hk]
          rw [List.filter_cons_of_neg (by simp [hak])]

/-! ### Aggregator lemmas -/

theorem scrapeAllSources_eq_flatten (outcomes : List (SettledResult (List Headline))) :
    scrapeAllSources outcomes = (outcomes.filterMap settledValue).flatten := by
  suffices h : ∀ (os : List (SettledResult (List Headline))) (acc : List Headline),
      os.foldl (fun headlines r => match r with
        | .fulfilled v => headlines ++ v
        | .rejected => headlines) acc = acc ++ (os.filterMap settledValue).flatten by
    simpa [scrapeAllSources] using h outcomes []
  intro os
  induction os with
  | nil => intro acc; simp
  | cons r rest ih =>
    intro acc
    cases r with
    | fulfilled v =>
      simp only [List.foldl_cons]
      rw [ih (acc ++ v)]
      simp [settledValue]
    | rejected =>
      simp only [List.foldl_cons]
      rw [ih acc]
      simp [settledValue]

theorem filterMap_settledValue_fulfilled (ls : List (List Headline)) :
    (ls.map SettledResult.fulfilled).filterMap settledValue = ls := by
  induction ls with
  | nil => rfl
  | cons l rest ih => simp [settledValue, ih]

theorem mem_scrapeAllSources (outcomes : List (SettledResult (List Headline)))
    (h : Headline) (hh : h ∈ scrapeAllSources outcomes) :
    ∃ l, SettledResult.fulfilled l ∈ outcomes ∧ h ∈ l := by
  rw [scrapeAllSources_eq_flatten] at hh
  rcases List.mem_flatten.mp hh with ⟨l, hl, hhl⟩
  rcases List.mem_filterMap.mp hl with ⟨r, hr, hrv⟩
  cases r with
  | fulfilled v =>
    refine ⟨l, ?_, hhl⟩
    have : v = l := by simpa [settledValue] using hrv
    exact this ▸ hr
  | rejected => simp [settledValue] at hrv

/-! ### PubMed adapter lemmas -/

theorem pubmedPush_ok_isPre (env : PubmedEnv) (acc : List Headline) (id : String)
    (article : PubmedArticle) (acc2 : List Headline)
    (h : pubmedPush env acc id article = .ok acc2) : List.IsPrefix acc acc2 := by
  unfold pubmedPush at h
  repeat' split at h
  all_goals try exact Except.noConfusion h
  all_goals injection h with h1
  all_goals subst h1
  all_goals first
  | exact List.prefix_rfl
  | exact List.prefix_append acc _

theorem pubmedPush_error_eq (env : PubmedEnv) (acc : List Headline) (id : String)
    (article : PubmedArticle) (e : List Headline)
    (h : pubmedPush env acc id article = .error e) : e = acc := by
  unfold pubmedPush at h
  repeat' split at h
  all_goals try exact Except.noConfusion h
  all_goals injection h with h1
  all_goals exact h1.symm

theorem pubmedPush_allOk (env : PubmedEnv) (acc : List Headline) (id : String)
    (article : PubmedArticle) (acc2 : List Headline)
    (h : pubmedPush env acc id article = .ok acc2) :
    pubmedPush { env with dateOk := fun _ => true } acc id article = .ok acc2 := by
  unfold pubmedPush at h ⊢
  repeat' split at h
  all_goals simp_all

theorem pubmedLoop_acc_isPre (env : PubmedEnv) (find : String → Option PubmedArticle) :
    ∀ (ids : List String) (acc : List Headline),
    List.IsPrefix acc (caughtResults (pubmedLoop env find ids acc)) := by
  intro ids
  induction ids with
  | nil => intro acc; exact List.prefix_rfl
  | cons id rest ih =>
    intro acc
    rw [pubmedLoop]
    cases hf : find id with
    | none => exact ih acc
    | some article =>
      show List.IsPrefix acc (caughtResults (match pubmedPush env acc id article with
        | Except.ok acc2 => pubmedLoop env find rest acc2
        | Except.error stopped => Except.error stopped))
      cases hp : pubmedPush env acc id article with
      | ok acc2 =>
        exact (pubmedPush_ok_isPre env acc id article acc2 hp).trans (ih acc2)
      | error e =>
        rw [pubmedPush_error_eq env acc id article e hp]
        exact List.prefix_rfl

theorem pubmedLoop_mono (env : PubmedEnv) (find : String → Option PubmedArticle) :
    ∀ (ids : List String) (acc : List Headline),
    List.IsPrefix (caughtResults (pubmedLoop env find ids acc))
      (caughtResults (pubmedLoop { env with dateOk := fun _ => true } find ids acc)) := by
  intro ids
  induction ids with
  | nil => intro acc; exact List.prefix_rfl
  | cons id rest ih =>
    intro acc
    rw [pubmedLoop, pubmedLoop]
    cases hf : find id with
    | none => exact ih acc
    | some article =>
      show List.IsPrefix
        (caughtResults (match pubmedPush env acc id article with
          | Except.ok acc2 => pubmedLoop env find rest acc2
          | Except.error stopped => Except.error stopped))
        (caughtResults (match pubmedPush { env with dateOk := fun _ => true } acc id article with
          | Except.ok acc2 => pubmedLoop { env with dateOk := fun _ => true } find rest acc2
          | Except.error stopped => Except.error stopped))
      cases hp : pubmedPush env acc id article with
      | ok acc2 =>
        rw [pubmedPush_allOk env acc id article acc2 hp]
        exact ih acc2
      | error e =>
        rw [pubmedPush_error_eq env acc id article e hp]
        cases hp2 : pubmedPush { env with dateOk := fun _ => true } acc id article with
        | ok acc2 =>
          exact (pubmedPush_ok_isPre _ acc id article acc2 hp2).trans
            (pubmedLoop_acc_isPre { env with dateOk := fun _ => true } find rest acc2)
        | error e2 =>
          rw [pubmedPush_error_eq _ acc id article e2 hp2]

theorem scrapePubmed_fetch_fail (env : PubmedEnv)
    (h : env.search = Except.error () ∨ env.summary = Except.error ()) :
    scrapePubmed env = [] := by
  unfold scrapePubmed scrapePubmedBody
  cases hs : env.search with
  | error e => rfl
  | ok sd =>
    show caughtResults (match sd.idlist with
      | none => Except.ok []
      | some ids =>
        if ids.isEmpty then Except.ok []
        else match env.summary with
          | .error _ => Except.error []
          | .ok sm => pubmedLoop env
              (fun id => match sm.result with | some f => f id | none => none) ids []) = []
    cases hid : sd.idlist with
    | none => rfl
    | some ids =>
      show caughtResults (if ids.isEmpty then Except.ok []
        else match env.summary with
          | .error _ => Except.error []
          | .ok sm => pubmedLoop env
              (fun id => match sm.result with | some f => f id | none => none) ids []) = []
      by_cases hemp : ids.isEmpty = true
      · rw [if_pos hemp]; rfl
      · rw [if_neg hemp]
        rcases h with h | h
        · rw [hs] at h; exact Except.noConfusion h
        · rw [h]; rfl

/-! ### Hacker News and Reddit adapter lemmas -/

theorem mem_scrapeHackerNews (env : HNEnv) (h : Headline)
    (hh : h ∈ scrapeHackerNews env) :
    h.source = "Hacker News" ∧ h.title ∈ hnRespTitles env := by
  unfold scrapeHackerNews at hh
  unfold hnRespTitles
  cases hr : env.resp with
  | error e =>
    rw [hr] at hh
    replace hh : h ∈ ([] : List Headline) := hh
    simp at hh
  | ok data =>
    rw [hr] at hh
    replace hh : h ∈ (match data.hits with
      | some hits => hits.map (fun (hit : HNHit) =>
          ({ title := hit.title, source := "Hacker News",
             url := some (hnItemUrl hit), date := some hit.created_at } : Headline))
      | none => ([] : List Headline)) := hh
    cases hhits : data.hits with
    | none =>
      rw [hhits] at hh
      replace hh : h ∈ ([] : List Headline) := hh
      simp at hh
    | some hits =>
      rw [hhits] at hh
      replace hh : h ∈ hits.map (fun hit =>
        ({ title := hit.title, source := "Hacker News",
           url := some (hnItemUrl hit), date := some hit.created_at } : Headline)) := hh
      rcases List.mem_map.mp hh with ⟨hit, hmem, heq⟩
      subst heq
      refine ⟨rfl, ?_⟩
      show hit.title ∈ (data.hits.getD []).map HNHit.title
      rw [hhits]
      exact List.mem_map.mpr ⟨hit, hmem, rfl⟩

theorem foldl_append_subHeadlines (f : String → List Headline) :
    ∀ (subs : List String) (acc : List Headline),
    subs.foldl (fun results subreddit => results ++ f subreddit) acc
      = acc ++ (subs.map f).flatten := by
  intro subs
  induction subs with
  | nil => intro acc; simp
  | cons s rest ih =>
    intro acc
    simp only [List.foldl_cons]
    rw [ih (acc ++ f s)]
    simp [List.append_assoc]

theorem mem_scrapeReddit (query : Option String) (env : RedditEnv) (h : Headline)
    (hh : h ∈ scrapeReddit query env) :
    (∃ s, h.source = "Reddit r/" ++ s) ∧ h.title ∈ redditRespTitles query env := by
  unfold scrapeReddit at hh
  unfold redditRespTitles
  by_cases hq : jsTruthy query = true
  · rw [if_pos hq] at hh
    rw [if_pos hq]
    cases hr : env.searchResp with
    | error e =>
      rw [hr] at hh
      replace hh : h ∈ ([] : List Headline) := hh
      simp at hh
    | ok listing =>
      rw [hr] at hh
      replace hh : h ∈ (redditChildren listing).map (fun child =>
        ({ title := child.data.title, source := "Reddit r/" ++ child.data.subreddit,
           url := some ("https://reddit.com" ++ child.data.permalink),
           date := some (env.epochIso child.data.created_utc) } : Headline)) := hh
      rcases List.mem_map.mp hh with ⟨child, hmem, heq⟩
      subst heq
      refine ⟨⟨child.data.subreddit, rfl⟩, ?_⟩
      show child.data.title ∈ (redditChildren listing).map (fun child => child.data.title)
      exact List.mem_map.mpr ⟨child, hmem, rfl⟩
  · rw [if_neg hq] at hh
    rw [if_neg hq]
    rw [foldl_append_subHeadlines (redditSubHeadlines env) redditSubreddits []] at hh
    replace hh : h ∈ (redditSubreddits.map (redditSubHeadlines env)).flatten := by
      simpa using hh
    rcases List.mem_flatten.mp hh with ⟨l, hl, hhl⟩
    rcases List.mem_map.mp hl with ⟨sub, hsub, hleq⟩
    subst hleq
    unfold redditSubHeadlines at hhl
    cases hs : env.subResp sub with
    | error e =>
      rw [hs] at hhl
      replace hhl : h ∈ ([] : List Headline) := hhl
      simp at hhl
    | ok listing =>
      rw [hs] at hhl
      replace hhl : h ∈ (redditChildren listing).map (fun child =>
        ({ title := child.data.title, source := "Reddit r/" ++ sub,
           url := some ("https://reddit.com" ++ child.data.permalink),
           date := some (env.epochIso child.data.created_utc) } : Headline)) := hhl
      rcases List.mem_map.mp hhl with ⟨child, hmem, heq⟩
      subst heq
      refine ⟨⟨sub, rfl⟩, ?_⟩
      refine List.mem_flatten.mpr
        ⟨(redditChildren listing).map (fun child => child.data.title), ?_, ?_⟩
      · refine List.mem_map.mpr ⟨sub, hsub, ?_⟩
        rw [hs]
      · exact List.mem_map.mpr ⟨child, hmem, rfl⟩

/-! ### Shuffle lemmas -/

theorem count_getElem_le {α : Type} [BEq α] [LawfulBEq α] (l : List α) (i : Nat)
    (hi : i < l.length) (x : α) :
    (if l[i] == x then 1 else 0) ≤ l.count x := by
  by_cases hax : (l[i] == x) = true
  · rw [if_pos hax]
    have hmem : x ∈ l := by
      have hx : l[i] = x := by simpa using hax
      exact hx ▸ List.getElem_mem hi
    exact List.count_pos_iff.mpr hmem
  · rw [if_neg hax]
    exact Nat.zero_le _

theorem swapL_perm {α : Type} (l : List α) (i j : Nat) : List.Perm (swapL l i j) l := by
  classical
  unfold swapL
  cases hi : l[i]? with
  | none => exact List.Perm.refl l
  | some a =>
    cases hj : l[j]? with
    | none => exact List.Perm.refl l
    | some b =>
      have hi' : i < l.length := by
        by_contra hcon
        rw [List.getElem?_eq_none (Nat.le_of_not_lt hcon)] at hi
        exact Option.noConfusion hi
      have hj' : j < l.length := by
        by_contra hcon
        rw [List.getElem?_eq_none (Nat.le_of_not_lt hcon)] at hj
        exact Option.noConfusion hj
      have ha : l[i] = a := by
        rw [List.getElem?_eq_getElem hi'] at hi
        exact Option.some.inj hi
      have hb : l[j] = b := by
        rw [List.getElem?_eq_getElem hj'] at hj
        exact Option.some.inj hj
      rw [List.perm_iff_count]
      intro x
      have hj2 : j < (l.set i b).length := by simpa using hj'
      rw [List.count_set a x (l.set i b) j hj2]
      rw [List.count_set b x l i hi']
      rw [List.getElem_set hj2]
      subst ha
      subst hb
      have hle1 := count_getElem_le l i hi' x
      have hle2 := count_getElem_le l j hj' x
      by_cases hij : i = j
      · subst hij
        rw [if_pos rfl]
        by_cases h1 : (l[i] == x) = true
        · simp only [h1, if_true] at *
          omega
        · simp only [h1, if_false] at *
          omega
      · rw [if_neg hij]
        by_cases h1 : (l[i] == x) = true <;> by_cases h2 : (l[j] == x) = true <;>
          simp only [h1, h2, if_true, if_false] at * <;> omega

theorem shuffleLoop_perm {α : Type} (js : Nat → Nat) :
    ∀ (i : Nat) (l : List α), List.Perm (shuffleLoop js i l) l := by
  intro i
  induction i with
  | zero => intro l; exact List.Perm.refl l
  | succ n ih =>
    intro l
    rw [shuffleLoop]
    exact (ih _).trans (swapL_perm l (n + 1) (js (n + 1) % (n + 2)))

theorem scrapePubmed_isPre_full (env : PubmedEnv) :
    List.IsPrefix (scrapePubmed env) (scrapePubmed { env with dateOk := fun _ => true }) := by
  obtain ⟨es, esum, edok, eiso⟩ := env
  unfold scrapePubmed scrapePubmedBody
  cases es with
  | error e => exact List.prefix_rfl
  | ok sd =>
    show List.IsPrefix
      (caughtResults (match sd.idlist with
        | none => Except.ok []
        | some ids => if ids.isEmpty then Except.ok []
          else match esum with
            | .error _ => Except.error []
            | .ok sm => pubmedLoop ⟨Except.ok sd, esum, edok, eiso⟩
                (fun id => match sm.result with | some f => f id | none => none) ids []))
      (caughtResults (match sd.idlist with
        | none => Except.ok []
        | some ids => if ids.isEmpty then Except.ok []
          else match esum with
            | .error _ => Except.error []
            | .ok sm => pubmedLoop ⟨Except.ok sd, esum, fun _ => true, eiso⟩
                (fun id => match sm.result with | some f => f id | none => none) ids []))
    cases hid : sd.idlist with
    | none => exact List.prefix_rfl
    | some ids =>
      show List.IsPrefix
        (caughtResults (if ids.isEmpty then Except.ok []
          else match esum with
            | .error _ => Except.error []
            | .ok sm => pubmedLoop ⟨Except.ok sd, esum, edok, eiso⟩
                (fun id => match sm.result with | some f => f id | none => none) ids []))
        (caughtResults (if ids.isEmpty then Except.ok []
          else match esum with
            | .error _ => Except.error []
            | .ok sm => pubmedLoop ⟨Except.ok sd, esum, fun _ => true, eiso⟩
                (fun id => match sm.result with | some f => f id | none => none) ids []))
      by_cases hemp : ids.isEmpty = true
      · rw [if_pos hemp, if_pos hemp]
      · rw [if_neg hemp, if_neg hemp]
        cases esum with
        | error e => exact List.prefix_rfl
        | ok sm =>
          exact pubmedLoop_mono ⟨Except.ok sd, Except.ok sm, edok, eiso⟩
            (fun id => match sm.result with | some f => f id | none => none) ids []

/-! ### The claims -/

/-- Claim C1 (fan-out isolation): for every assignment of result lists to the
15 configured adapters in which one adapter's promise rejects while all the
others fulfil, `scrapeAllSources` returns exactly the concatenation of the
other adapters' result lists — the failing adapter contributes nothing and
the aggregate call itself does not fail (it is a total function of the
settled outcomes). -/
theorem scrapeAllSources_isolation (ls₁ ls₂ : List (List Headline))
    (h15 : ls₁.length + 1 + ls₂.length = 15) :
    scrapeAllSources (ls₁.map SettledResult.fulfilled ++
      SettledResult.rejected :: ls₂.map SettledResult.fulfilled) =
      ls₁.flatten ++ ls₂.flatten := by
  rw [scrapeAllSources_eq_flatten, List.filterMap_append,
    List.filterMap_cons_none rfl, filterMap_settledValue_fulfilled,
    filterMap_settledValue_fulfilled, List.flatten_append]

/-- Witness for claim C1: seven fulfilled adapters, one rejected adapter and
seven more fulfilled adapters (15 in total). -/
theorem scrapeAllSources_isolation_witness :
    scrapeAllSources ((List.replicate 7 [({ title := "A", source := "S" } : Headline)]).map
        SettledResult.fulfilled ++
      SettledResult.rejected ::
        (List.replicate 7 ([] : List Headline)).map SettledResult.fulfilled) =
      (List.replicate 7 [({ title := "A", source := "S" } : Headline)]).flatten ++
      (List.replicate 7 ([] : List Headline)).flatten :=
  scrapeAllSources_isolation _ _ (by decide)

/-- Claim C2: `deduplicateHeadlines` returns a subsequence of its input that
keeps, for each distinct dedup key occurring in the input, exactly the first
headline bearing that key, in first-seen order; in particular `[A, B, A']`
with colliding `A`, `A'` and non-colliding `B` dedups to `[A, B]`, and the
output is never longer than the input. -/
theorem deduplicateHeadlines_spec (hs : List Headline) :
    List.Sublist (deduplicateHeadlines hs) hs ∧
    (∀ k : String, (deduplicateHeadlines hs).filter (fun h => hashTitle h.title == k) =
      (hs.filter (fun h => hashTitle h.title == k)).take 1) ∧
    (deduplicateHeadlines hs).length ≤ hs.length ∧
    (∀ A B A2 : Headline, hashTitle A.title = hashTitle A2.title →
      hashTitle B.title ≠ hashTitle A.title →
      deduplicateHeadlines [A, B, A2] = [A, B]) := by
  refine ⟨dedupAux_sublist [] hs, ?_, (dedupAux_sublist [] hs).length_le, ?_⟩
  · intro k
    have hkey := dedupAux_filter_key [] hs k
    simpa [deduplicateHeadlines] using hkey
  · intro A B A2 h1 h2
    simp [deduplicateHeadlines, dedupAux, List.contains_cons, h2, Ne.symm h2, h1.symm]

/-- Witness for claim C2: a colliding pair separated by an unrelated headline
dedups to the first two records. -/
theorem deduplicateHeadlines_spec_witness :
    deduplicateHeadlines
      [({ title := "CRISPR Breakthrough!", source := "a" } : Headline),
       ({ title := "Other News", source := "b" } : Headline),
       ({ title := "crispr breakthrough", source := "c" } : Headline)] =
      [({ title := "CRISPR Breakthrough!", source := "a" } : Headline),
       ({ title := "Other News", source := "b" } : Headline)] :=
  (deduplicateHeadlines_spec []).2.2.2 _ _ _ (by decide) (by decide)

/-- Counterexample to claim C3 as stated: stripping punctuation replaces the
hyphen with nothing, so "CRISPR-Cas9" normalizes to "crisprcas9" while
"CRISPR Cas9" normalizes to "crispr cas9" — the two titles do not collide. -/
theorem normalizeTitle_hyphen_counterexample :
    ¬ (normalizeTitle "CRISPR-Cas9" = normalizeTitle "CRISPR Cas9") := by
  decide

/-- Claim C3 (amended): "CRISPR Breakthrough!" and "crispr breakthrough" both
normalize to "crispr breakthrough" and therefore collide, but "CRISPR-Cas9"
normalizes to "crisprcas9" and "CRISPR Cas9" to "crispr cas9", so the
hyphenated pair does not collide under the implemented normalization. -/
theorem normalizeTitle_collision_examples :
    normalizeTitle "CRISPR Breakthrough!" = "crispr breakthrough" ∧
    normalizeTitle "crispr breakthrough" = "crispr breakthrough" ∧
    normalizeTitle "CRISPR-Cas9" = "crisprcas9" ∧
    normalizeTitle "CRISPR Cas9" = "crispr cas9" ∧
    normalizeTitle "CRISPR-Cas9" ≠ normalizeTitle "CRISPR Cas9" := by
  decide

/-- Claim C4: normalization is idempotent — normalizing an already normalized
title leaves it unchanged, for every input string. -/
theorem normalizeTitle_idempotent (t : String) :
    normalizeTitle (normalizeTitle t) = normalizeTitle t :=
  congrArg String.mk (normChars_idem t.data)

/-- Claim C5 (fan-out completeness): when all 15 configured adapters fulfil
with result lists of sizes n1..nk, the aggregate list returned by
`scrapeAllSources` (before deduplication) has length equal to the sum of the
sizes. -/
theorem scrapeAllSources_completeness (ls : List (List Headline))
    (h15 : ls.length = 15) :
    (scrapeAllSources (ls.map SettledResult.fulfilled)).length =
      (ls.map List.length).sum := by
  rw [scrapeAllSources_eq_flatten, filterMap_settledValue_fulfilled]
  exact List.length_flatten ls

/-- Witness for claim C5 at a concrete family of 15 fulfilled adapters. -/
theorem scrapeAllSources_completeness_witness :
    (scrapeAllSources ((List.replicate 15
        [({ title := "A", source := "S" } : Headline)]).map SettledResult.fulfilled)).length =
      ((List.replicate 15 [({ title := "A", source := "S" } : Headline)]).map
        List.length).sum :=
  scrapeAllSources_completeness _ (by decide)

/-- Claim C6: for every list and every stream of random draws, `shuffleArray`
returns a permutation of its input, so sorting the output by any total order
over a stable key agrees with sorting the input. -/
theorem shuffleArray_perm {α : Type} (js : Nat → Nat) (l : List α) :
    List.Perm (shuffleArray js l) l :=
  shuffleLoop_perm js (l.length - 1) l

/-- Counterexample to claim C7 as stated: with all 15 adapter promises
fulfilled and the Hacker News adapter having consumed a response whose single
hit carries an empty title, the list returned by `scrapeAllSources` contains
a headline whose title is the empty string — the adapter copies the title
verbatim without a non-emptiness check. -/
theorem headline_wellformed_counterexample :
    ¬ (∀ h ∈ scrapeAllSources wellformednessOutcomes,
        h.title ≠ "" ∧ h.source ≠ "") := by
  decide

/-- Claim C7 (amended): every headline produced by `scrapeHackerNews` has
source "Hacker News" and a title copied verbatim from a response hit; every
headline produced by `scrapeReddit` has a source of the form
"Reddit r/" ++ subreddit — in particular non-empty — and a title copied
verbatim from a response child; and every headline in the `scrapeAllSources`
output belongs to some fulfilled adapter's list.  Neither adapter enforces
title non-emptiness: output titles are non-empty exactly when the
corresponding response titles are. -/
theorem headline_wellformed_amended :
    (∀ (env : HNEnv) (h : Headline), h ∈ scrapeHackerNews env →
      h.source = "Hacker News" ∧ h.title ∈ hnRespTitles env) ∧
    (∀ (query : Option String) (env : RedditEnv) (h : Headline),
      h ∈ scrapeReddit query env →
      (∃ s, h.source = "Reddit r/" ++ s) ∧ h.source ≠ "" ∧
        h.title ∈ redditRespTitles query env) ∧
    (∀ (outcomes : List (SettledResult (List Headline))) (h : Headline),
      h ∈ scrapeAllSources outcomes →
      ∃ l, SettledResult.fulfilled l ∈ outcomes ∧ h ∈ l) := by
  refine ⟨mem_scrapeHackerNews, ?_, mem_scrapeAllSources⟩
  intro query env h hh
  rcases mem_scrapeReddit query env h hh with ⟨⟨s, hs⟩, ht⟩
  refine ⟨⟨s, hs⟩, ?_, ht⟩
  rw [hs]
  intro hcon
  have hlen : ("Reddit r/" ++ s).length = "Reddit r/".length + s.length :=
    String.length_append _ _
  rw [hcon] at hlen
  have h9 : "Reddit r/".length = 9 := rfl
  have h0 : ("" : String).length = 0 := rfl
  rw [h9, h0] at hlen
  omega

/-- Witness for the amended claim C7 at the malformed Hacker News
environment: the produced headline keeps the adapter's fixed source label and
its (here empty) title comes verbatim from the response. -/
theorem headline_wellformed_amended_witness :
    ({ title := "", source := "Hacker News",
       url := some "https://news.ycombinator.com/item?id=123",
       date := some "2025-01-01T00:00:00.000Z" } : Headline).source = "Hacker News" ∧
    ({ title := "", source := "Hacker News",
       url := some "https://news.ycombinator.com/item?id=123",
       date := some "2025-01-01T00:00:00.000Z" } : Headline).title ∈ hnRespTitles hnBadEnv :=
  headline_wellformed_amended.1 hnBadEnv _ (by decide)

/-- Counterexample to claim C8 as stated: in `pubmedBadEnv` both fetches
succeed but converting the second article's publication date throws inside
the result loop; `scrapePubmed` still resolves — the error is not
propagated — yet with the non-empty partial list accumulated before the
throw, not with an empty list. -/
theorem fail_soft_counterexample :
    (scrapePubmedBody pubmedBadEnv).isOk = false ∧
    scrapePubmed pubmedBadEnv = [pubmedAlphaHeadline] ∧
    scrapePubmed pubmedBadEnv ≠ [] := by
  refine ⟨?_, ?_, ?_⟩ <;> decide

/-- Claim C8 (amended): `scrapePubmed` resolves for every environment and
never propagates an error: when either of its two fetch/JSON steps fails it
resolves with the empty list; when a failure occurs later (converting an
article's date) it resolves with exactly the headlines accumulated before
the failure — a prefix of what a fully successful parse would return — and
`scrapeAllSources` always resolves with the concatenation of the fulfilled
adapters' lists. -/
theorem fail_soft_amended (env : PubmedEnv)
    (outcomes : List (SettledResult (List Headline))) :
    ((env.search = Except.error () ∨ env.summary = Except.error ()) →
      scrapePubmed env = []) ∧
    List.IsPrefix (scrapePubmed env)
      (scrapePubmed { env with dateOk := fun _ => true }) ∧
    scrapeAllSources outcomes = (outcomes.filterMap settledValue).flatten :=
  ⟨scrapePubmed_fetch_fail env, scrapePubmed_isPre_full env,
    scrapeAllSources_eq_flatten outcomes⟩

/-- Witness for the amended claim C8: an environment whose search fetch
throws resolves with the empty list. -/
theorem fail_soft_amended_witness :
    scrapePubmed { search := Except.error (), summary := Except.error (),
                   dateOk := (fun _ => false), dateIso := (fun _ => "") } = [] :=
  (fail_soft_amended { search := Except.error (), summary := Except.error (),
                       dateOk := (fun _ => false), dateIso := (fun _ => "") } []).1
    (Or.inl rfl)

/-- Claim C10: deduplication is idempotent — deduplicating an already
deduplicated list changes nothing — and the returned headlines are the very
records of the input (every output element is an element of the input; no
record is modified or replaced). -/
theorem deduplicateHeadlines_idempotent (hs : List Headline) :
    deduplicateHeadlines (deduplicateHeadlines hs) = deduplicateHeadlines hs ∧
    ∀ h ∈ deduplicateHeadlines hs, h ∈ hs := by
  constructor
  · show dedupAux [] (dedupAux [] hs) = dedupAux [] hs
    apply dedupAux_eq_self
    · intro h _; rfl
    · exact dedupAux_pairwise [] hs
  · intro h hh
    exact (dedupAux_sublist [] hs).subset hh

/-- Witness for claim C10 at a concrete one-element list. -/
theorem deduplicateHeadlines_idempotent_witness :
    ({ title := "A", source := "S" } : Headline) ∈
      [({ title := "A", source := "S" } : Headline)] :=
  (deduplicateHeadlines_idempotent [({ title := "A", source := "S" } : Headline)]).2 _
    (by decide)
